import Mathlib

/-
Verification of the Y4M (YUV4MPEG2) demuxer: a shallow embedding of
`src/demuxer.rs` (header tokenizer, header parser, format probe, and the
demuxer's two lifecycle operations), together with theorems settling the
specification's claims about it.

Byte slices are modelled as `List Nat` (each element a byte value).
Rust panics (slice-index out of bounds, `unwrap` failures, `split_at` off a
char boundary) are modelled as an explicit `panic` result; nom's
`Err::Error` (the `tag` mismatch, the only nom error this code can produce
since the complete-variant `take_till` is total) is modelled as `error`.
-/

namespace Y4M

abbrev Bytes := List Nat

/-- Delimiter predicate of `header_token`: `c == b' ' || c == b'\n'`. -/
def isDelim (c : Nat) : Bool := c == 32 || c == 10

/-- UTF-8 continuation byte: `0x80 ..= 0xBF`. -/
def isCont (c : Nat) : Bool := 128 ≤ c && c ≤ 191

/-- Validity of a byte sequence as UTF-8, as checked by
`std::str::from_utf8` (surrogates and overlong encodings rejected). -/
def validUtf8 : Bytes → Bool
  | [] => true
  | c :: rest =>
    if c ≤ 127 then validUtf8 rest
    else if 194 ≤ c && c ≤ 223 then
      match rest with
      | c1 :: r => isCont c1 && validUtf8 r
      | [] => false
    else if c == 224 then
      match rest with
      | c1 :: c2 :: r => (160 ≤ c1 && c1 ≤ 191) && isCont c2 && validUtf8 r
      | _ => false
    else if 225 ≤ c && c ≤ 236 then
      match rest with
      | c1 :: c2 :: r => isCont c1 && isCont c2 && validUtf8 r
      | _ => false
    else if c == 237 then
      match rest with
      | c1 :: c2 :: r => (128 ≤ c1 && c1 ≤ 159) && isCont c2 && validUtf8 r
      | _ => false
    else if 238 ≤ c && c ≤ 239 then
      match rest with
      | c1 :: c2 :: r => isCont c1 && isCont c2 && validUtf8 r
      | _ => false
    else if c == 240 then
      match rest with
      | c1 :: c2 :: c3 :: r =>
        (144 ≤ c1 && c1 ≤ 191) && isCont c2 && isCont c3 && validUtf8 r
      | _ => false
    else if 241 ≤ c && c ≤ 243 then
      match rest with
      | c1 :: c2 :: c3 :: r => isCont c1 && isCont c2 && isCont c3 && validUtf8 r
      | _ => false
    else if c == 244 then
      match rest with
      | c1 :: c2 :: c3 :: r =>
        (128 ≤ c1 && c1 ≤ 143) && isCont c2 && isCont c3 && validUtf8 r
      | _ => false
    else false

/-- Rust `str::parse::<usize>` on the bytes of the string: optional
leading `+`, then one or more ASCII digits, value below `2 ^ 64`
(checked arithmetic of a 64-bit `usize`); anything else is `Err`. -/
def parseUsize (s : Bytes) : Option Nat :=
  let body := match s with
    | 43 :: rest => rest
    | _ => s
  if !body.isEmpty && body.all (fun c => 48 ≤ c && c ≤ 57) then
    let v := body.foldl (fun a c => a * 10 + (c - 48)) 0
    if v < 18446744073709551616 then some v else none
  else none

/-- The `Y4MHeader` record of the source: decoded width and height. -/
structure Y4MHeader where
  width : Nat
  height : Nat
deriving DecidableEq

/-- Result of the header field loop: the accumulated header, or a Rust
panic (empty token or non-boundary `split_at(1)`, `from_utf8` unwrap,
`ii[0]` out of bounds). -/
inductive LoopRes where
  | ok : Y4MHeader → LoopRes
  | panic : LoopRes
deriving DecidableEq

/-- The `loop` body of `header` in the source, with a structural fuel so
that the kernel can evaluate it; each iteration consumes at least one
input byte, so `header` supplies fuel `input.length + 1`, which is never
exhausted.  One iteration: take a token up to the next space/newline
(nom complete `take_till`, total), `from_utf8(..).unwrap()` (panics on
invalid UTF-8), `split_at(1)` (panics on an empty token or a token whose
first byte is not a one-byte char), update width/height on keys `W`/`H`
when the value parses, skip any other key, then inspect `ii[0]` (panics
when the slice is exhausted): newline breaks, otherwise continue past the
space. -/
def headerLoopFuel : Nat → Bytes → Nat → Nat → LoopRes
  | 0, _, _, _ => .panic
  | fuel + 1, i, width, height =>
    let token := i.takeWhile (fun c => !isDelim c)
    let ii := i.dropWhile (fun c => !isDelim c)
    if !validUtf8 token then .panic
    else
      match token with
      | [] => .panic
      | id :: val =>
        if 128 ≤ id then .panic
        else
          let wh :=
            if id = 87 then
              match parseUsize val with
              | some w => (w, height)
              | none => (width, height)
            else if id = 72 then
              match parseUsize val with
              | some h => (width, h)
              | none => (width, height)
            else (width, height)
          match ii with
          | [] => .panic
          | c :: rest =>
            if c = 10 then .ok ⟨wh.1, wh.2⟩
            else headerLoopFuel fuel rest wh.1 wh.2

/-- The magic tag `"YUV4MPEG2 "` (ten bytes, trailing space included). -/
def magic : Bytes := [89, 85, 86, 52, 77, 80, 69, 71, 50, 32]

/-- Result of `header`: on success the *remaining input slice as the
source returns it* together with the header; `error` is nom's
`Err::Error` from the `tag` combinator; `panic` a Rust panic. -/
inductive HResult where
  | ok : Bytes → Y4MHeader → HResult
  | error : HResult
  | panic : HResult
deriving DecidableEq

/-- The `header` function of the source.  Note that on success the source
returns `Ok((input, header))` with `input` the ORIGINAL slice passed in,
not the remainder past the newline; the embedding reproduces that. -/
def header (input : Bytes) : HResult :=
  if magic.isPrefixOf input then
    let i := input.drop 10
    match headerLoopFuel (i.length + 1) i 0 0 with
    | .ok h => .ok input h
    | .panic => .panic
  else .error

/-- The fields of the `Stream` value built by `read_headers` (host
`av_format` stream descriptor restricted to the fields the source sets
to non-trivial values). -/
structure Stream where
  id : Int
  index : Nat
  bit_rate : Nat
  width : Nat
  height : Nat
  timebase : Int × Int
deriving DecidableEq

/-- Opaque media packet (never constructed by this demuxer). -/
structure Packet where
  data : Bytes
deriving DecidableEq

/-- The host `Event` variants matched by the source and its tests. -/
inductive Event where
  | moreDataNeeded : Nat → Event
  | newStream : Stream → Event
  | newPacket : Packet → Event
  | cont : Event
  | eof : Event
deriving DecidableEq

/-- The host `GlobalInfo` sink, restricted to its stream list;
`add_stream` appends. -/
structure GlobalInfo where
  streams : List Stream
deriving DecidableEq

/-- The demuxer state: optional parsed header and FIFO event queue
(`#[derive(Default)]`: both empty initially). -/
structure Y4MDemuxer where
  header : Option Y4MHeader
  queue : List Event
deriving DecidableEq

/-- `Y4MDemuxer::new()`: `Default::default()`. -/
def Y4MDemuxer.new : Y4MDemuxer := ⟨none, []⟩

/-- Result of `read_headers`: `ok off` is `Ok(SeekFrom::Current(off))`,
`err` is `Err(Error::InvalidData)`, `panic` a Rust panic propagating out
of `header`. -/
inductive RHResult where
  | ok : Int → RHResult
  | err : RHResult
  | panic : RHResult
deriving DecidableEq

def RHResult.isOk : RHResult → Bool
  | .ok _ => true
  | _ => false

/-- `Offset::offset` of a suffix slice `rest` of `buf` relative to
`buf`'s start: the pointer distance, i.e. `buf.len() - rest.len()`. -/
def offsetOf (buf rest : Bytes) : Int := ((buf.length - rest.length : Nat) : Int)

/-- `Demuxer::read_headers` of the source: parse the buffered bytes; on
success store the header, append one video stream (id 0, index 0,
bit_rate 1, timebase 1/1000000000, dimensions from the header) to the
global info, and return `SeekFrom::Current` of the offset of the slice
`header` returned — which is the original input, hence offset 0; on nom
failure return `Err(Error::InvalidData)` and leave all state unchanged. -/
def read_headers (d : Y4MDemuxer) (buf : Bytes) (info : GlobalInfo) :
    Y4MDemuxer × GlobalInfo × RHResult :=
  match header buf with
  | .ok rest h =>
    let st : Stream :=
      { id := 0, index := 0, bit_rate := 1,
        width := h.width, height := h.height,
        timebase := (1, 1000000000) }
    ({ d with header := some h },
     { info with streams := info.streams ++ [st] },
     .ok (offsetOf buf rest))
  | .error => (d, info, .err)
  | .panic => (d, info, .panic)

/-- Result of `read_event`: `ok off e` is `Ok((SeekFrom::Current(off), e))`,
`err` is `Err(Error::InvalidData)` (the `TODO implement` stub). -/
inductive REResult where
  | ok : Int → Event → REResult
  | err : REResult
deriving DecidableEq

/-- `Demuxer::read_event` of the source: pop the front of the queue if
any; otherwise `Eof` when the buffered input is empty, else the
unimplemented-packet stub `Err(Error::InvalidData)`. -/
def read_event (d : Y4MDemuxer) (buf : Bytes) : Y4MDemuxer × REResult :=
  match d.queue with
  | e :: rest => ({ d with queue := rest }, .ok 0 e)
  | [] =>
    if buf.isEmpty then (d, .ok 0 .eof)
    else (d, .err)

/-- Result of `Descriptor::probe`: a confidence score, or a Rust panic
(the slice `&data[..=10]` panics when fewer than 11 bytes are given, and
panics inside `header` propagate). -/
inductive ProbeResult where
  | score : Nat → ProbeResult
  | panic : ProbeResult
deriving DecidableEq

/-- `Descriptor::probe` of the source: run `header` on the first 11
bytes (`&data[..=10]`, which panics when `data.len() < 11`); score 10 on
`Ok`, 0 on a nom error. -/
def probe (data : Bytes) : ProbeResult :=
  if data.length < 11 then .panic
  else
    match header (data.take 11) with
    | .ok _ _ => .score 10
    | .error => .score 0
    | .panic => .panic

/-- States of one demuxer session reachable from `Y4MDemuxer::new()` by
any sequence of `read_headers` / `read_event` calls with arbitrary
buffered input and global info. -/
inductive Reachable : Y4MDemuxer → Prop where
  | init : Reachable Y4MDemuxer.new
  | headers (d : Y4MDemuxer) (buf : Bytes) (info : GlobalInfo) :
      Reachable d → Reachable (read_headers d buf info).1
  | event (d : Y4MDemuxer) (buf : Bytes) :
      Reachable d → Reachable (read_event d buf).1

/-
Auxiliary vocabulary for stating properties about whole header lines:
a header line is a nonempty list of tokens rendered with single-space
separators and a terminating newline; a token is well formed when it is
nonempty, contains no delimiter byte, is valid UTF-8, and starts with a
one-byte (ASCII) character — exactly the conditions under which one loop
iteration of `header` neither panics nor splits the token wrongly.
-/

/-- A well-formed header token: nonempty, no space/newline inside, valid
UTF-8, first byte a one-byte char. -/
def wfT (t : Bytes) : Bool :=
  !t.isEmpty && t.all (fun c => !isDelim c) && validUtf8 t &&
    decide (t.headD 0 ≤ 127)

/-- Render a token list as the body of a header line: tokens joined by
single spaces (the caller appends the terminating newline). -/
def sepRender : List Bytes → Bytes
  | [] => []
  | [t] => t
  | t :: t2 :: ts => t ++ 32 :: sepRender (t2 :: ts)

/-- Effect of one token on the accumulator for a given key byte: if the
token's first byte is the key and its value parses, replace the
accumulator with the parsed value, else keep it. -/
def stepKey (key : Nat) (d : Nat) (t : Bytes) : Nat :=
  if t.head? = some key then (parseUsize t.tail).getD d else d

/-- Fold of `stepKey` over a token list: the field value the parsing
loop accumulates for a given key byte, starting from default `d`. -/
def foldKey (key : Nat) (d : Nat) (ts : List Bytes) : Nat :=
  ts.foldl (stepKey key) d

/-- The parsed value of the last token of the list whose first byte is
`key` (0 when its value does not parse), or 0 when no token has that
key: the specification's "value of the last occurrence of the key, or
the default 0 if absent". -/
def lastOcc (key : Nat) (ts : List Bytes) : Nat :=
  match (ts.filter (fun t => decide (t.head? = some key))).getLast? with
  | some t => (parseUsize t.tail).getD 0
  | none => 0

lemma takeWhile_token (t : Bytes) (c : Nat) (r : Bytes)
    (ht : t.all (fun b => !isDelim b) = true) (hc : isDelim c = true) :
    (t ++ c :: r).takeWhile (fun b => !isDelim b) = t ∧
    (t ++ c :: r).dropWhile (fun b => !isDelim b) = c :: r := by
  induction t with
  | nil =>
    constructor
    · simp [List.takeWhile_cons, hc]
    · simp [List.dropWhile_cons, hc]
  | cons a t ih =>
    simp only [List.all_cons, Bool.and_eq_true] at ht
    obtain ⟨ha, ht⟩ := ht
    obtain ⟨h1, h2⟩ := ih ht
    constructor
    · simp [List.takeWhile_cons, ha, h1]
    · simp [List.dropWhile_cons, ha, h2]

/-- One iteration of the parsing loop on a well-formed token followed by
a delimiter: newline breaks with the updated fields, space continues on
the rest with the updated fields. -/
lemma headerLoopFuel_step (fuel : Nat) (t : Bytes) (c : Nat) (r : Bytes)
    (w h : Nat) (hwf : wfT t = true) (hc : isDelim c = true) :
    headerLoopFuel (fuel + 1) (t ++ c :: r) w h =
      if c = 10 then .ok ⟨stepKey 87 w t, stepKey 72 h t⟩
      else headerLoopFuel fuel r (stepKey 87 w t) (stepKey 72 h t) := by
  simp only [wfT, Bool.and_eq_true, Bool.not_eq_true', decide_eq_true_eq] at hwf
  obtain ⟨⟨⟨hne, hall⟩, hv⟩, hd⟩ := hwf
  cases t with
  | nil => simp [List.isEmpty] at hne
  | cons id val =>
    obtain ⟨htake, hdrop⟩ := takeWhile_token (id :: val) c r hall hc
    have hid : ¬ (128 ≤ id) := by
      simp only [List.headD_cons] at hd; omega
    simp only [headerLoopFuel, htake, hdrop, hv, Bool.not_true,
      Bool.false_eq_true, if_false, hid, if_neg, ite_false,
      stepKey, List.head?_cons, List.tail_cons, Option.some.injEq]
    by_cases h87 : id = 87
    · subst h87
      cases hp : parseUsize val <;> simp [hp]
    · by_cases h72 : id = 72
      · subst h72
        cases hp : parseUsize val <;> simp [hp]
      · simp [h87, h72]

/-- The parsing loop on a rendered header line with enough fuel yields
the `stepKey`-fold of the tokens for width (key `W` = 87) and height
(key `H` = 72). -/
lemma headerLoopFuel_render :
    ∀ (ts : List Bytes), ts ≠ [] → (∀ t ∈ ts, wfT t = true) →
    ∀ (trailing : Bytes) (w h fuel : Nat),
      (sepRender ts ++ 10 :: trailing).length < fuel →
      headerLoopFuel fuel (sepRender ts ++ 10 :: trailing) w h =
        .ok ⟨foldKey 87 w ts, foldKey 72 h ts⟩ := by
  intro ts
  induction ts with
  | nil => intro hne; exact absurd rfl hne
  | cons t ts ih =>
    intro _ hwf trailing w h fuel hfuel
    cases fuel with
    | zero => omega
    | succ fuel =>
      cases ts with
      | nil =>
        rw [show sepRender [t] = t from rfl,
          headerLoopFuel_step fuel t 10 trailing w h
            (hwf t (List.mem_cons_self t _)) (by simp [isDelim])]
        simp [foldKey]
      | cons t2 ts' =>
        rw [show sepRender (t :: t2 :: ts') = t ++ 32 :: sepRender (t2 :: ts')
            from rfl] at hfuel ⊢
        rw [List.append_assoc] at hfuel ⊢
        simp only [List.cons_append] at hfuel ⊢
        rw [headerLoopFuel_step fuel t 32
            (sepRender (t2 :: ts') ++ 10 :: trailing) w h
            (hwf t (List.mem_cons_self t _)) (by simp [isDelim])]
        rw [if_neg (by omega)]
        rw [ih (by simp) (fun u hu => hwf u (List.mem_cons_of_mem t hu))
            trailing _ _ fuel (by simp [List.length_append] at hfuel ⊢; omega)]
        simp [foldKey]

/-- `header` on a full line of well-formed tokens: the magic is
recognised, the loop runs over the rendered tokens, and the source
returns the ORIGINAL input slice together with the folded fields. -/
lemma header_render (ts : List Bytes) (trailing : Bytes)
    (h1 : ts ≠ []) (h2 : ∀ t ∈ ts, wfT t = true) :
    header (magic ++ (sepRender ts ++ 10 :: trailing)) =
      .ok (magic ++ (sepRender ts ++ 10 :: trailing))
        ⟨foldKey 87 0 ts, foldKey 72 0 ts⟩ := by
  have hpre : magic.isPrefixOf (magic ++ (sepRender ts ++ 10 :: trailing)) = true := by
    rw [List.isPrefixOf_iff_prefix]
    exact List.prefix_append magic _
  have hdrop : (magic ++ (sepRender ts ++ 10 :: trailing)).drop 10 =
      sepRender ts ++ 10 :: trailing := by
    simp [magic]
  simp only [header, hpre, if_true, hdrop]
  rw [headerLoopFuel_render ts h1 h2 trailing 0 0 _ (by omega)]

lemma foldKey_cons (key d : Nat) (t : Bytes) (ts : List Bytes) :
    foldKey key d (t :: ts) = foldKey key (stepKey key d t) ts := rfl

/-- When every token carrying the key has an unparsable value, the fold
keeps its starting value. -/
lemma foldKey_of_parse_none (key : Nat) :
    ∀ (ts : List Bytes) (d : Nat),
      (∀ t ∈ ts, t.head? = some key → parseUsize t.tail = none) →
      foldKey key d ts = d := by
  intro ts
  induction ts with
  | nil => intro d _; rfl
  | cons t ts ih =>
    intro d hp
    rw [foldKey_cons]
    have hstep : stepKey key d t = d := by
      unfold stepKey
      by_cases hk : t.head? = some key
      · rw [if_pos hk, hp t (List.mem_cons_self t ts) hk]; rfl
      · rw [if_neg hk]
    rw [hstep]
    exact ih d fun u hu => hp u (List.mem_cons_of_mem t hu)

/-- When every token carrying the key has a parsable value, the fold
computes the value of the last occurrence of the key (its starting value
when the key never occurs). -/
lemma foldKey_of_parse_isSome (key : Nat) :
    ∀ (ts : List Bytes) (d : Nat),
      (∀ t ∈ ts, t.head? = some key → (parseUsize t.tail).isSome = true) →
      foldKey key d ts =
        match (ts.filter (fun t => decide (t.head? = some key))).getLast? with
        | some t => (parseUsize t.tail).getD 0
        | none => d := by
  intro ts
  induction ts with
  | nil => intro d _; rfl
  | cons t ts ih =>
    intro d hp
    rw [foldKey_cons]
    by_cases hk : t.head? = some key
    · obtain ⟨v, hv⟩ := Option.isSome_iff_exists.mp
        (hp t (List.mem_cons_self t ts) hk)
      have hstep : stepKey key d t = v := by
        unfold stepKey; rw [if_pos hk, hv]; rfl
      have hfc : (t :: ts).filter (fun t => decide (t.head? = some key)) =
          t :: ts.filter (fun t => decide (t.head? = some key)) := by
        simp [List.filter_cons, hk]
      rw [hstep, hfc,
        ih v fun u hu => hp u (List.mem_cons_of_mem t hu)]
      cases hfl : ts.filter (fun t => decide (t.head? = some key)) with
      | nil => simp [hv]
      | cons f fs =>
        rw [List.getLast?_cons_cons]
        obtain ⟨u, hu⟩ := Option.isSome_iff_exists.mp
          (List.getLast?_isSome.mpr (List.cons_ne_nil f fs))
        rw [hu]
    · have hstep : stepKey key d t = d := by
        unfold stepKey; rw [if_neg hk]
      have hfc : (t :: ts).filter (fun t => decide (t.head? = some key)) =
          ts.filter (fun t => decide (t.head? = some key)) := by
        simp [List.filter_cons, hk]
      rw [hstep, hfc]
      exact ih d fun u hu => hp u (List.mem_cons_of_mem t hu)

lemma read_headers_preserves_queue (d : Y4MDemuxer) (buf : Bytes)
    (info : GlobalInfo) : (read_headers d buf info).1.queue = d.queue := by
  unfold read_headers
  cases header buf <;> rfl

lemma read_event_queue_nil_fix (d : Y4MDemuxer) (hq : d.queue = [])
    (buf : Bytes) : (read_event d buf).1 = d := by
  simp only [read_event, hq]
  by_cases hb : buf.isEmpty <;> simp [hb]

/-- Claim C2: for every well-formed header line containing `W` and `H`
tokens in any relative order, interleaved with any number of
unrecognized tokens (whose recognized values parse), the header parser
yields width and height equal to the values of the last occurrence of
each recognized key — default 0 when the key is absent — and the
unrecognized tokens neither alter width/height nor abort the loop. -/
theorem header_field_extraction_last_occurrence (ts : List Bytes)
    (trailing : Bytes) (h1 : ts ≠ []) (h2 : ∀ t ∈ ts, wfT t = true)
    (h3 : ∀ t ∈ ts, (t.head? = some 87 ∨ t.head? = some 72) →
      (parseUsize t.tail).isSome = true) :
    header (magic ++ (sepRender ts ++ 10 :: trailing)) =
      .ok (magic ++ (sepRender ts ++ 10 :: trailing))
        ⟨lastOcc 87 ts, lastOcc 72 ts⟩ := by
  rw [header_render ts trailing h1 h2]
  have hW : foldKey 87 0 ts = lastOcc 87 ts := by
    rw [foldKey_of_parse_isSome 87 ts 0 fun t ht hk => h3 t ht (Or.inl hk)]
    rfl
  have hH : foldKey 72 0 ts = lastOcc 72 ts := by
    rw [foldKey_of_parse_isSome 72 ts 0 fun t ht hk => h3 t ht (Or.inr hk)]
    rfl
  rw [hW, hH]

/-- Witness for claim C2 at the spec's scenario 2, the header line
`"YUV4MPEG2 H144 W176 C420\n"`: order of `W`/`H` reversed and an
unknown token `C420` present, parsed width 176 and height 144. -/
theorem header_field_extraction_last_occurrence_witness :
    header (magic ++
      (sepRender [[72,49,52,52],[87,49,55,54],[67,52,50,48]] ++ 10 :: [])) =
      .ok (magic ++
        (sepRender [[72,49,52,52],[87,49,55,54],[67,52,50,48]] ++ 10 :: []))
        ⟨176, 144⟩ :=
  (header_field_extraction_last_occurrence
    [[72,49,52,52],[87,49,55,54],[67,52,50,48]] [] (by decide) (by decide)
    (by decide)).trans (by decide)

/-- Claim C7: a malformed numeric value for key `W` (or `H`) does not
fail the overall header parse; the parse succeeds and the corresponding
field keeps its default 0 when every token of that key is malformed. -/
theorem header_malformed_numeric_tolerated (ts : List Bytes)
    (trailing : Bytes) (h1 : ts ≠ []) (h2 : ∀ t ∈ ts, wfT t = true) :
    header (magic ++ (sepRender ts ++ 10 :: trailing)) =
      .ok (magic ++ (sepRender ts ++ 10 :: trailing))
        ⟨foldKey 87 0 ts, foldKey 72 0 ts⟩
    ∧ ((∀ t ∈ ts, t.head? = some 87 → parseUsize t.tail = none) →
        foldKey 87 0 ts = 0)
    ∧ ((∀ t ∈ ts, t.head? = some 72 → parseUsize t.tail = none) →
        foldKey 72 0 ts = 0) :=
  ⟨header_render ts trailing h1 h2,
   fun hp => foldKey_of_parse_none 87 ts 0 hp,
   fun hp => foldKey_of_parse_none 72 ts 0 hp⟩

/-- Witness for claim C7 on the header line `"YUV4MPEG2 Wabc H144\n"`:
the parse succeeds, width keeps the default 0, height is 144. -/
theorem header_malformed_numeric_tolerated_witness :
    header (magic ++ (sepRender [[87,97,98,99],[72,49,52,52]] ++ 10 :: [])) =
      .ok (magic ++ (sepRender [[87,97,98,99],[72,49,52,52]] ++ 10 :: []))
        ⟨0, 144⟩ :=
  (header_malformed_numeric_tolerated [[87,97,98,99],[72,49,52,52]] []
    (by decide) (by decide)).1.trans (by decide)

/-- Claim C1 (code bug): on the spec's example input
`"YUV4MPEG2 W176 H144\n"` followed by frame bytes, `read_headers`
succeeds and registers the 176×144 stream, but returns seek offset 0,
not the 20 bytes the claim requires: `header` returns the original
input slice, so the computed consumed offset is always 0. -/
theorem read_headers_example_offset_zero :
    read_headers Y4MDemuxer.new
        (magic ++ [87,49,55,54,32,72,49,52,52,10] ++ [1,2,3]) ⟨[]⟩ =
      (⟨some ⟨176, 144⟩, []⟩,
       ⟨[{ id := 0, index := 0, bit_rate := 1, width := 176, height := 144,
           timebase := (1, 1000000000) }]⟩,
       .ok 0)
    ∧ RHResult.ok 0 ≠ RHResult.ok 20 := by decide

/-- Claim C4 (code bug): on a candidate prefix shorter than 11 bytes —
here the 10-byte magic itself — `probe` panics on the slice
`&data[..=10]` instead of returning zero confidence. -/
theorem probe_short_prefix_panics :
    probe magic = .panic ∧ probe magic ≠ .score 0 := by decide

/-- Claim C5 (code bug): on the input `"YUV4MPEG2 "` with no further
bytes, the header line is not fully buffered; `open` panics (the empty
token makes `split_at(1)` index out of bounds) instead of failing with
a `NeedMoreInput` condition. -/
theorem read_headers_truncated_input_panics :
    read_headers Y4MDemuxer.new magic ⟨[]⟩ =
      (Y4MDemuxer.new, ⟨[]⟩, .panic) := by decide

/-- Claim C6 (code bug): on a header token that is not valid UTF-8 —
here `"YUV4MPEG2 W\xff\n"` — `open` panics (the `from_utf8` result is
unwrapped) instead of failing with an `InvalidEncoding` error. -/
theorem read_headers_invalid_utf8_panics :
    read_headers Y4MDemuxer.new (magic ++ [87, 255, 10]) ⟨[]⟩ =
      (Y4MDemuxer.new, ⟨[]⟩, .panic) := by decide

/-- Counterexample to claim C3 as stated: on the 6-byte non-magic input
`"FOOBAR"` the probe does not return confidence 0 — it panics on the
slice `&data[..=10]`. -/
theorem probe_nonmagic_short_input_panics :
    probe [70,79,79,66,65,82] = .panic ∧
    probe [70,79,79,66,65,82] ≠ .score 0 := by decide

/-- Claim C3 as amended: for every byte string that does not start with
`"YUV4MPEG2 "`, `read_headers` fails with the format error
(`Error::InvalidData`) and registers no stream, and — when the string
has at least the 11 bytes the probe slices — the probe returns
confidence 0. -/
theorem probe_and_open_reject_nonmagic (data : Bytes)
    (hm : magic.isPrefixOf data = false) :
    (11 ≤ data.length → probe data = .score 0) ∧
    ∀ (d : Y4MDemuxer) (info : GlobalInfo),
      read_headers d data info = (d, info, .err) := by
  have hh : header data = .error := by
    simp [header, hm]
  constructor
  · intro hlen
    have hm11 : magic.isPrefixOf (data.take 11) = false := by
      by_contra hcon
      have htrue : magic.isPrefixOf (data.take 11) = true := by
        cases hx : magic.isPrefixOf (data.take 11) with
        | true => rfl
        | false => exact absurd hx hcon
      have hpre : magic <+: data := by
        exact (List.isPrefixOf_iff_prefix.mp htrue).trans
          (List.take_prefix 11 data)
      rw [← List.isPrefixOf_iff_prefix] at hpre
      rw [hpre] at hm
      cases hm
    have hh11 : header (data.take 11) = .error := by
      simp [header, hm11]
    simp only [probe]
    rw [if_neg (by omega), hh11]
  · intro d info
    simp [read_headers, hh]

/-- Witness for the amended claim C3 on the 11-byte non-magic input
`"XUV4MPEG2 W"`: probe confidence 0, open fails with the format error,
no stream registered. -/
theorem probe_and_open_reject_nonmagic_witness :
    probe [88,85,86,52,77,80,69,71,50,32,87] = .score 0 ∧
    read_headers Y4MDemuxer.new [88,85,86,52,77,80,69,71,50,32,87] ⟨[]⟩ =
      (Y4MDemuxer.new, ⟨[]⟩, .err) :=
  ⟨(probe_and_open_reject_nonmagic [88,85,86,52,77,80,69,71,50,32,87]
      (by decide)).1 (by decide),
   (probe_and_open_reject_nonmagic [88,85,86,52,77,80,69,71,50,32,87]
      (by decide)).2 Y4MDemuxer.new ⟨[]⟩⟩

/-- Counterexample to claim C8 as stated: after the first `Eof` on an
empty queue and empty input, the next `read_event` call does not fail
with `InvalidState` — it succeeds and returns `Eof` again (the demuxer
has no closed state, and the host error type it uses has no
`InvalidState` variant). -/
theorem read_event_after_eof_succeeds_with_eof :
    (read_event Y4MDemuxer.new []).2 = .ok 0 .eof ∧
    (read_event (read_event Y4MDemuxer.new []).1 []).2 = .ok 0 .eof ∧
    (read_event (read_event Y4MDemuxer.new []).1 []).2 ≠ .err := by decide

/-- Claim C8 as amended: with an empty event queue and no remaining
input bytes, every `read_event` call — the first and all subsequent
ones — returns `Eof` and leaves the state unchanged, so draining is
idempotent; no call after the first `Eof` fails. -/
theorem read_event_empty_always_eof (d : Y4MDemuxer) (hq : d.queue = []) :
    read_event d [] = (d, .ok 0 .eof) := by
  simp [read_event, hq]

/-- Witness for the amended claim C8 at the fresh demuxer state. -/
theorem read_event_empty_always_eof_witness :
    read_event Y4MDemuxer.new [] = (Y4MDemuxer.new, .ok 0 .eof) :=
  read_event_empty_always_eof Y4MDemuxer.new rfl

/-- Claim C9: whenever `read_headers` fails (nom error or panic — any
non-`Ok` outcome), no stream descriptor is registered with the global
info and the demuxer state, its stored header included, is unchanged. -/
theorem read_headers_failure_preserves_state (d : Y4MDemuxer) (buf : Bytes)
    (info : GlobalInfo)
    (hfail : (read_headers d buf info).2.2.isOk = false) :
    (read_headers d buf info).1 = d ∧ (read_headers d buf info).2.1 = info := by
  cases hh : header buf with
  | ok rest h => simp [read_headers, hh, RHResult.isOk] at hfail
  | error => simp [read_headers, hh]
  | panic => simp [read_headers, hh]

/-- Witness for claim C9 on the failing input `"FOO"`: the open fails
and neither the demuxer state nor the global info changes. -/
theorem read_headers_failure_preserves_state_witness :
    (read_headers Y4MDemuxer.new [70,79,79] ⟨[]⟩).2.2.isOk = false ∧
    ((read_headers Y4MDemuxer.new [70,79,79] ⟨[]⟩).1 = Y4MDemuxer.new ∧
      (read_headers Y4MDemuxer.new [70,79,79] ⟨[]⟩).2.1 = ⟨[]⟩) :=
  ⟨by decide,
   read_headers_failure_preserves_state Y4MDemuxer.new [70,79,79] ⟨[]⟩
     (by decide)⟩

/-- Claim C10: no operation ever pushes an event into the queue, so in
every reachable state the queue is empty and `read_event` only ever
returns the `Eof` event or the stub error — never `MoreDataNeeded`,
`NewStream`, `NewPacket`, or `Continue`. -/
theorem reachable_states_empty_queue_eof_or_error (d : Y4MDemuxer)
    (hr : Reachable d) :
    d.queue = [] ∧
    ∀ buf : Bytes, (read_event d buf).2 = .ok 0 .eof ∨
      (read_event d buf).2 = .err := by
  have hq : d.queue = [] := by
    induction hr with
    | init => rfl
    | headers d buf info hr ih => rw [read_headers_preserves_queue]; exact ih
    | event d buf hr ih => rw [read_event_queue_nil_fix d ih buf]; exact ih
  refine ⟨hq, fun buf => ?_⟩
  simp only [read_event, hq]
  by_cases hb : buf.isEmpty
  · left; simp [hb]
  · right; simp [hb]

/-- Witness for claim C10 at the initial (reachable) state. -/
theorem reachable_states_empty_queue_eof_or_error_witness :
    Y4MDemuxer.new.queue = [] ∧
    ∀ buf : Bytes, (read_event Y4MDemuxer.new buf).2 = .ok 0 .eof ∨
      (read_event Y4MDemuxer.new buf).2 = .err :=
  reachable_states_empty_queue_eof_or_error Y4MDemuxer.new Reachable.init

end Y4M
